import Mathlib

/-!
Verification of the finite-difference engine of this QuantLib fork.

The development shallowly embeds the parts of the code base that the
checked properties are about: the one-dimensional axis meshers, the
step-condition composite, the backward solver driver (time grid and
damping-step policy), the solver failure states, the boundary-condition
attachment of the Heston rebate engine, and the inner-value calculators.

Machine doubles are modelled as exact rationals; external math-library
routines (std::exp, SimpsonIntegral) are passed as explicit function
parameters, a failing integration being `none`.
-/

/-- The error taxonomy of section 7 of the specification. -/
inductive FdmError where
  | invalidMesherConfig
  | dimensionMismatch
  | singularSystem
  | staleQuery
deriving DecidableEq

/-- Modelled from the spec: the axis mesher data of `Fdm1dMesher`
(whose implementation is not under src/); an ordered sequence of
locations together with the stored forward spacing `dplus` and backward
spacing `dminus`, `none` marking the side that does not exist at a
domain edge. -/
structure Fdm1dMesher where
  locations : List ℚ
  dplus : List (Option ℚ)
  dminus : List (Option ℚ)
deriving DecidableEq

/-- Forward spacings derived from a location list: the full distance to
the right neighbour, `none` at the upper edge. -/
def mkDplus (pts : List ℚ) : List (Option ℚ) :=
  (List.range pts.length).map
    (fun i => if i + 1 < pts.length then some (pts.getD (i + 1) 0 - pts.getD i 0) else none)

/-- Backward spacings derived from a location list: the full distance to
the left neighbour, `none` at the lower edge. -/
def mkDminus (pts : List ℚ) : List (Option ℚ) :=
  (List.range pts.length).map
    (fun i => if 0 < i then some (pts.getD i 0 - pts.getD (i - 1) 0) else none)

/-- An axis mesher assembled from its location list, the spacings being
the distances to the two neighbours of each point. -/
def mkMesher (pts : List ℚ) : Fdm1dMesher :=
  { locations := pts, dplus := mkDplus pts, dminus := mkDminus pts }

/-- The locations of a uniform axis: `n` equally spaced points from `a`
to `b`. -/
def uniformLocations (a b : ℚ) (n : ℕ) : List ℚ :=
  (List.range n).map (fun (i : ℕ) => a + (i : ℚ) * ((b - a) / ((n : ℚ) - 1)))

/-- Modelled from the spec: the `Uniform1dMesher` construction policy
(implementation not under src/): uniform spacing between two bounds,
rejecting fewer than 3 points or an empty interval with
`InvalidMesherConfig`. -/
def uniform1dMesher (a b : ℚ) (n : ℕ) : Except FdmError Fdm1dMesher :=
  if n < 3 ∨ ¬ a < b then .error .invalidMesherConfig
  else .ok (mkMesher (uniformLocations a b n))

/-- Modelled from the spec: the `Predefined1dMesher` construction policy
(implementation not under src/): a user-supplied location list, rejected
with `InvalidMesherConfig` unless it has at least 3 strictly increasing
points. -/
def predefined1dMesher (pts : List ℚ) : Except FdmError Fdm1dMesher :=
  if pts.length < 3 ∨ ¬ pts.Pairwise (· < ·) then .error .invalidMesherConfig
  else .ok (mkMesher pts)

/-- The locations of a concentrated axis built by a sinh-style
stretching: the stretch of a uniform partition of the stretched
interval, anchored at the critical point. -/
def concentratingLocations (sinhF asinhF : ℚ → ℚ) (a b cPoint density : ℚ) (n : ℕ) :
    List ℚ :=
  (List.range n).map
    (fun (i : ℕ) => cPoint + density * sinhF (asinhF ((a - cPoint) / density) +
      (i : ℚ) * ((asinhF ((b - cPoint) / density) - asinhF ((a - cPoint) / density)) /
        ((n : ℚ) - 1))))

/-- Modelled from the spec: the `Concentrating1dMesher` construction
policy (implementation not under src/), for a single critical point:
spacing concentrated near `cPoint` with relative density `density`,
built by a monotonic sinh-style stretching.  The stretching pair
`sinhF`/`asinhF` is taken as a parameter since the spec fixes only its
monotonicity; invalid parameters (fewer than 3 points, empty interval,
non-positive density, critical point outside the bounds) are rejected
with `InvalidMesherConfig`. -/
def concentrating1dMesher (sinhF asinhF : ℚ → ℚ) (a b cPoint density : ℚ) (n : ℕ) :
    Except FdmError Fdm1dMesher :=
  if n < 3 ∨ ¬ a < b ∨ ¬ 0 < density ∨ ¬ (a ≤ cPoint ∧ cPoint ≤ b) then
    .error .invalidMesherConfig
  else .ok (mkMesher (concentratingLocations sinhF asinhF a b cPoint density n))

/-- The construction policies of section 4.1 of the specification. -/
inductive MesherSpec where
  | uniform (a b : ℚ) (n : ℕ)
  | predefined (pts : List ℚ)
  | concentrating (sinhF asinhF : ℚ → ℚ) (a b cPoint density : ℚ) (n : ℕ)

/-- Dispatch a construction policy to its constructor. -/
def constructMesher : MesherSpec → Except FdmError Fdm1dMesher
  | .uniform a b n => uniform1dMesher a b n
  | .predefined pts => predefined1dMesher pts
  | .concentrating sinhF asinhF a b c d n => concentrating1dMesher sinhF asinhF a b c d n

/-- The per-axis mesher invariant of section 3 of the specification:
at least 3 points, strictly increasing locations, and strictly positive
spacings wherever they exist. -/
def mesherInvariant (m : Fdm1dMesher) : Prop :=
  3 ≤ m.locations.length ∧
  m.locations.Pairwise (· < ·) ∧
  (∀ o ∈ m.dplus, ∀ x, o = some x → 0 < x) ∧
  (∀ o ∈ m.dminus, ∀ x, o = some x → 0 < x)

/-- The parameter sets each construction policy rejects. -/
def mesherBadParams : MesherSpec → Prop
  | .uniform a b n => n < 3 ∨ ¬ a < b
  | .predefined pts => pts.length < 3 ∨ ¬ pts.Pairwise (· < ·)
  | .concentrating _ _ a b cPoint density n =>
      n < 3 ∨ ¬ a < b ∨ ¬ 0 < density ∨ ¬ (a ≤ cPoint ∧ cPoint ≤ b)

/-- The monotonicity the spec ascribes to the sinh-style stretching of
the concentrating policy; trivial for the other policies. -/
def stretchMono : MesherSpec → Prop
  | .concentrating sinhF asinhF _ _ _ _ _ => StrictMono sinhF ∧ StrictMono asinhF
  | _ => True

lemma getD_map_range {α : Type} (f : ℕ → α) {n i : ℕ} (d : α) (h : i < n) :
    ((List.range n).map f).getD i d = f i := by
  rw [List.getD_eq_getElem?_getD, List.getElem?_map, List.getElem?_range h]
  rfl

lemma length_mkDplus (pts : List ℚ) : (mkDplus pts).length = pts.length := by
  simp [mkDplus]

lemma length_mkDminus (pts : List ℚ) : (mkDminus pts).length = pts.length := by
  simp [mkDminus]

lemma mkDplus_getD (pts : List ℚ) {i : ℕ} (h : i + 1 < pts.length) :
    (mkDplus pts).getD i none = some (pts.getD (i + 1) 0 - pts.getD i 0) := by
  rw [mkDplus, getD_map_range _ _ (by omega), if_pos h]

lemma mkDminus_getD (pts : List ℚ) {i : ℕ} (h0 : 0 < i) (h : i < pts.length) :
    (mkDminus pts).getD i none = some (pts.getD i 0 - pts.getD (i - 1) 0) := by
  rw [mkDminus, getD_map_range _ _ h, if_pos h0]

lemma mkDplus_last (pts : List ℚ) (h : 0 < pts.length) :
    (mkDplus pts).getD (pts.length - 1) none = none := by
  rw [mkDplus, getD_map_range _ _ (by omega), if_neg (by omega)]

lemma mkDminus_zero (pts : List ℚ) (h : 0 < pts.length) :
    (mkDminus pts).getD 0 none = none := by
  rw [mkDminus, getD_map_range _ _ h, if_neg (by omega)]

lemma pos_of_mem_mkDplus {pts : List ℚ} (hp : pts.Pairwise (· < ·)) :
    ∀ o ∈ mkDplus pts, ∀ x, o = some x → 0 < x := by
  intro o ho x hx
  obtain ⟨i, hi, rfl⟩ := List.mem_map.1 ho
  rw [List.mem_range] at hi
  by_cases h : i + 1 < pts.length
  · rw [if_pos h] at hx
    cases hx
    rw [List.getD_eq_getElem pts 0 h, List.getD_eq_getElem pts 0 (by omega)]
    have := (List.pairwise_iff_getElem.1 hp) i (i + 1) (by omega) h (by omega)
    linarith
  · rw [if_neg h] at hx
    cases hx

lemma pos_of_mem_mkDminus {pts : List ℚ} (hp : pts.Pairwise (· < ·)) :
    ∀ o ∈ mkDminus pts, ∀ x, o = some x → 0 < x := by
  intro o ho x hx
  obtain ⟨i, hi, rfl⟩ := List.mem_map.1 ho
  rw [List.mem_range] at hi
  by_cases h : 0 < i
  · rw [if_pos h] at hx
    cases hx
    rw [List.getD_eq_getElem pts 0 hi, List.getD_eq_getElem pts 0 (by omega)]
    have := (List.pairwise_iff_getElem.1 hp) (i - 1) i (by omega) hi (by omega)
    linarith
  · rw [if_neg h] at hx
    cases hx

lemma pairwise_lt_map_range {f : ℕ → ℚ} (n : ℕ) (hf : ∀ i j, i < j → f i < f j) :
    ((List.range n).map f).Pairwise (· < ·) :=
  (List.pairwise_lt_range n).map f hf

lemma mesherInvariant_mkMesher {pts : List ℚ} (h3 : 3 ≤ pts.length)
    (hp : pts.Pairwise (· < ·)) : mesherInvariant (mkMesher pts) :=
  ⟨h3, hp, pos_of_mem_mkDplus hp, pos_of_mem_mkDminus hp⟩

lemma pairwise_uniformLocations {a b : ℚ} {n : ℕ} (h3 : 3 ≤ n) (hab : a < b) :
    (uniformLocations a b n).Pairwise (· < ·) := by
  unfold uniformLocations
  apply pairwise_lt_map_range
  intro i j hij
  have hn : (0:ℚ) < (n:ℚ) - 1 := by
    have : (3:ℚ) ≤ (n:ℚ) := by exact_mod_cast h3
    linarith
  have hdx : 0 < (b - a) / ((n : ℚ) - 1) := div_pos (by linarith) hn
  have hij2 : (i:ℚ) < (j:ℚ) := by exact_mod_cast hij
  have := mul_lt_mul_of_pos_right hij2 hdx
  linarith

lemma pairwise_concentratingLocations {sinhF asinhF : ℚ → ℚ} {a b cPoint density : ℚ}
    {n : ℕ} (hsm : StrictMono sinhF) (ham : StrictMono asinhF)
    (h3 : 3 ≤ n) (hab : a < b) (hd : 0 < density) :
    (concentratingLocations sinhF asinhF a b cPoint density n).Pairwise (· < ·) := by
  unfold concentratingLocations
  apply pairwise_lt_map_range
  intro i j hij
  have hn : (0:ℚ) < (n:ℚ) - 1 := by
    have : (3:ℚ) ≤ (n:ℚ) := by exact_mod_cast h3
    linarith
  have hu : asinhF ((a - cPoint) / density) < asinhF ((b - cPoint) / density) :=
    ham (div_lt_div_of_pos_right (by linarith) hd)
  have hstep :
      0 < (asinhF ((b - cPoint) / density) - asinhF ((a - cPoint) / density)) / ((n:ℚ) - 1) :=
    div_pos (by linarith) hn
  have hij2 : (i:ℚ) < (j:ℚ) := by exact_mod_cast hij
  have harg := mul_lt_mul_of_pos_right hij2 hstep
  have hsinh := hsm (show
      asinhF ((a - cPoint) / density) + (i:ℚ) *
        ((asinhF ((b - cPoint) / density) - asinhF ((a - cPoint) / density)) / ((n:ℚ) - 1)) <
      asinhF ((a - cPoint) / density) + (j:ℚ) *
        ((asinhF ((b - cPoint) / density) - asinhF ((a - cPoint) / density)) / ((n:ℚ) - 1))
    by linarith)
  have := mul_lt_mul_of_pos_left hsinh hd
  linarith

/-- C5: every constructed axis mesher (uniform, predefined, or
concentrating with the strictly monotone stretching the spec requires)
satisfies the invariant of at least 3 points, strictly increasing
locations, and strictly positive dplus/dminus wherever defined; and any
construction whose parameters violate the invariant fails with
InvalidMesherConfig. -/
theorem mesher_construction_invariant (spec : MesherSpec) (hs : stretchMono spec) :
    (∀ m, constructMesher spec = .ok m → mesherInvariant m) ∧
    (mesherBadParams spec → constructMesher spec = .error .invalidMesherConfig) := by
  cases spec with
  | uniform a b n =>
      constructor
      · intro m h
        by_cases hg : n < 3 ∨ ¬ a < b
        · rw [constructMesher, uniform1dMesher, if_pos hg] at h; cases h
        · rw [constructMesher, uniform1dMesher, if_neg hg] at h
          injection h with h
          subst h
          push_neg at hg
          exact mesherInvariant_mkMesher
            (by rw [uniformLocations, List.length_map, List.length_range]; exact hg.1)
            (pairwise_uniformLocations hg.1 hg.2)
      · intro hbad
        rw [constructMesher, uniform1dMesher]
        exact if_pos hbad
  | predefined pts =>
      constructor
      · intro m h
        by_cases hg : pts.length < 3 ∨ ¬ pts.Pairwise (· < ·)
        · rw [constructMesher, predefined1dMesher, if_pos hg] at h; cases h
        · rw [constructMesher, predefined1dMesher, if_neg hg] at h
          injection h with h
          subst h
          push_neg at hg
          exact mesherInvariant_mkMesher hg.1 hg.2
      · intro hbad
        rw [constructMesher, predefined1dMesher]
        exact if_pos hbad
  | concentrating sinhF asinhF a b cPoint density n =>
      constructor
      · intro m h
        by_cases hg : n < 3 ∨ ¬ a < b ∨ ¬ 0 < density ∨ ¬ (a ≤ cPoint ∧ cPoint ≤ b)
        · rw [constructMesher, concentrating1dMesher, if_pos hg] at h; cases h
        · rw [constructMesher, concentrating1dMesher, if_neg hg] at h
          injection h with h
          subst h
          push_neg at hg
          exact mesherInvariant_mkMesher
            (by rw [concentratingLocations, List.length_map, List.length_range]; exact hg.1)
            (pairwise_concentratingLocations hs.1 hs.2 hg.1 hg.2.1 hg.2.2.1)
      · intro hbad
        rw [constructMesher, concentrating1dMesher]
        exact if_pos hbad

lemma uniformLocations_zero_two_three : uniformLocations 0 2 3 = [0, 1, 2] := by
  norm_num [uniformLocations, List.range_succ]

/-- C5 witness: the invariant theorem applied to the uniform policy on
the interval (0,2) with 3 points, and its rejection of the empty
interval (0,0). -/
theorem mesher_construction_invariant_witness :
    mesherInvariant (mkMesher [0, 1, 2]) ∧
    constructMesher (.uniform 0 0 3) = .error .invalidMesherConfig :=
  ⟨(mesher_construction_invariant (.uniform 0 2 3) trivial).1 (mkMesher [0, 1, 2])
      (by rw [constructMesher, uniform1dMesher, if_neg (by norm_num),
              uniformLocations_zero_two_three]),
   (mesher_construction_invariant (.uniform 0 0 3) trivial).2
      (by norm_num [mesherBadParams])⟩

lemma exists_mkMesher_of_ok {spec : MesherSpec} {m : Fdm1dMesher}
    (h : constructMesher spec = .ok m) : ∃ pts, m = mkMesher pts := by
  cases spec with
  | uniform a b n =>
      by_cases hg : n < 3 ∨ ¬ a < b
      · rw [constructMesher, uniform1dMesher, if_pos hg] at h; cases h
      · rw [constructMesher, uniform1dMesher, if_neg hg] at h
        injection h with h
        exact ⟨_, h.symm⟩
  | predefined pts =>
      by_cases hg : pts.length < 3 ∨ ¬ pts.Pairwise (· < ·)
      · rw [constructMesher, predefined1dMesher, if_pos hg] at h; cases h
      · rw [constructMesher, predefined1dMesher, if_neg hg] at h
        injection h with h
        exact ⟨_, h.symm⟩
  | concentrating sinhF asinhF a b cPoint density n =>
      by_cases hg : n < 3 ∨ ¬ a < b ∨ ¬ 0 < density ∨ ¬ (a ≤ cPoint ∧ cPoint ≤ b)
      · rw [constructMesher, concentrating1dMesher, if_pos hg] at h; cases h
      · rw [constructMesher, concentrating1dMesher, if_neg hg] at h
        injection h with h
        exact ⟨_, h.symm⟩

/-- C2 (amended): for every constructed axis mesher, dplus and dminus
return the forward and backward spacing equal to the full distance to
the neighbouring grid point on the respective side, with only one side
defined at a domain edge; the halving to form averaging cells is done
by consumers such as FdmLogInnerValue.avgInnerValueCalc. -/
theorem mesher_dplus_dminus_spacing (spec : MesherSpec) (m : Fdm1dMesher)
    (h : constructMesher spec = .ok m) :
    m.dplus.length = m.locations.length ∧
    m.dminus.length = m.locations.length ∧
    (∀ i, i + 1 < m.locations.length →
      m.dplus.getD i none = some (m.locations.getD (i + 1) 0 - m.locations.getD i 0)) ∧
    (∀ i, 0 < i → i < m.locations.length →
      m.dminus.getD i none = some (m.locations.getD i 0 - m.locations.getD (i - 1) 0)) ∧
    (0 < m.locations.length →
      m.dminus.getD 0 none = none ∧ m.dplus.getD (m.locations.length - 1) none = none) := by
  obtain ⟨pts, rfl⟩ := exists_mkMesher_of_ok h
  refine ⟨length_mkDplus pts, length_mkDminus pts, ?_, ?_, ?_⟩
  · intro i hi
    exact mkDplus_getD pts hi
  · intro i h0 hi
    exact mkDminus_getD pts h0 hi
  · intro hpos
    exact ⟨mkDminus_zero pts hpos, mkDplus_last pts hpos⟩

/-- C2 witness: the amended theorem applied to the uniform mesher on
the interval (0,2) with 3 points. -/
theorem mesher_dplus_dminus_spacing_witness :
    (mkMesher [0, 1, 2]).dplus.getD 0 none
      = some ((mkMesher [0, 1, 2]).locations.getD 1 0 -
              (mkMesher [0, 1, 2]).locations.getD 0 0) ∧
    (mkMesher [0, 1, 2]).dminus.getD 0 none = none :=
  ⟨(mesher_dplus_dminus_spacing (.uniform 0 2 3) (mkMesher [0, 1, 2])
      (by rw [constructMesher, uniform1dMesher, if_neg (by norm_num),
              uniformLocations_zero_two_three])).2.2.1 0 (by simp [mkMesher]),
   ((mesher_dplus_dminus_spacing (.uniform 0 2 3) (mkMesher [0, 1, 2])
      (by rw [constructMesher, uniform1dMesher, if_neg (by norm_num),
              uniformLocations_zero_two_three])).2.2.2.2 (by simp [mkMesher])).1⟩

/-- C2 counterexample: the claim as stated is false, since the spacing
returned at the middle point of the uniform mesher on (0,2) with 3
points is the full neighbour distance 1 and not half of it. -/
theorem mesher_dplus_half_distance_false :
    constructMesher (.uniform 0 2 3) = .ok (mkMesher [0, 1, 2]) ∧
    (mkMesher [0, 1, 2]).dplus.getD 1 none = some 1 ∧
    ((mkMesher [0, 1, 2]).locations.getD 2 0 - (mkMesher [0, 1, 2]).locations.getD 1 0) / 2
      = 1 / 2 ∧
    some (1 : ℚ) ≠ some ((1 : ℚ) / 2) := by
  refine ⟨by rw [constructMesher, uniform1dMesher, if_neg (by norm_num),
                 uniformLocations_zero_two_three], ?_, by norm_num [mkMesher], by norm_num⟩
  norm_num [mkMesher, mkDplus, List.range_succ]

/-- Modelled from the spec: one registered step condition of the
composite (the StepCondition implementations are not under src/): its
trigger times and its transformation of the solution vector. -/
structure FdmStepCondition where
  times : List ℚ
  transform : List ℚ → ℚ → List ℚ

/-- Modelled from the spec: `FdmStepConditionComposite` (implementation
not under src/): the registered conditions, in registration order. -/
structure FdmStepConditionComposite where
  conditions : List FdmStepCondition

/-- Insert a time into an ascending duplicate-free list, keeping it
ascending and duplicate-free. -/
def insertTime (t : ℚ) : List ℚ → List ℚ
  | [] => [t]
  | x :: xs => if t < x then t :: x :: xs else if t = x then x :: xs else x :: insertTime t xs

/-- Merge several time values into one ascending duplicate-free list. -/
def mergeTimes (ts : List ℚ) : List ℚ := ts.foldr insertTime []

/-- The exposed trigger-time sequence of the composite: the merge of
the time lists of all registered conditions. -/
def FdmStepConditionComposite.stoppingTimes (c : FdmStepConditionComposite) : List ℚ :=
  mergeTimes ((c.conditions.map (fun cond => cond.times)).flatten)

/-- Modelled from the spec: applying the composite to the in-place
solution vector at a time applies, in registration order, every
condition registered for that time. -/
def FdmStepConditionComposite.applyTo (c : FdmStepConditionComposite)
    (a : List ℚ) (t : ℚ) : List ℚ :=
  c.conditions.foldl
    (fun arr cond => if t ∈ cond.times then cond.transform arr t else arr) a

lemma mem_insertTime (t x : ℚ) (l : List ℚ) :
    x ∈ insertTime t l ↔ x = t ∨ x ∈ l := by
  induction l with
  | nil => simp [insertTime]
  | cons y ys ih =>
      rw [insertTime]
      by_cases h1 : t < y
      · simp [if_pos h1]
      · rw [if_neg h1]
        by_cases h2 : t = y
        · subst h2
          simp [if_pos rfl]
        · rw [if_neg h2]
          simp only [List.mem_cons, ih]
          tauto

lemma pairwise_insertTime (t : ℚ) {l : List ℚ} (h : l.Pairwise (· < ·)) :
    (insertTime t l).Pairwise (· < ·) := by
  induction l with
  | nil => simp [insertTime]
  | cons y ys ih =>
      rw [List.pairwise_cons] at h
      rw [insertTime]
      by_cases h1 : t < y
      · rw [if_pos h1, List.pairwise_cons]
        constructor
        · intro z hz
          rcases List.mem_cons.1 hz with rfl | hz2
          · exact h1
          · exact h1.trans (h.1 z hz2)
        · rw [List.pairwise_cons]
          exact h
      · rw [if_neg h1]
        by_cases h2 : t = y
        · rw [if_pos h2, List.pairwise_cons]
          exact h
        · rw [if_neg h2, List.pairwise_cons]
          have hyt : y < t := by
            rcases lt_trichotomy t y with hlt | heq | hgt
            · exact absurd hlt h1
            · exact absurd heq h2
            · exact hgt
          constructor
          · intro z hz
            rcases (mem_insertTime t z ys).1 hz with rfl | hz2
            · exact hyt
            · exact h.1 z hz2
          · exact ih h.2

lemma pairwise_mergeTimes (ts : List ℚ) : (mergeTimes ts).Pairwise (· < ·) := by
  induction ts with
  | nil => simp [mergeTimes]
  | cons t ts ih => exact pairwise_insertTime t ih

lemma mem_mergeTimes (x : ℚ) (ts : List ℚ) : x ∈ mergeTimes ts ↔ x ∈ ts := by
  induction ts with
  | nil => simp [mergeTimes]
  | cons t ts ih =>
      rw [mergeTimes, List.foldr_cons, mem_insertTime]
      rw [mergeTimes] at ih
      rw [ih, List.mem_cons]

lemma foldl_if_mem_eq_foldl_filter (conds : List FdmStepCondition) (t : ℚ) (a : List ℚ) :
    conds.foldl (fun arr cond => if t ∈ cond.times then cond.transform arr t else arr) a
      = (conds.filter (fun cond => decide (t ∈ cond.times))).foldl
          (fun arr cond => cond.transform arr t) a := by
  induction conds generalizing a with
  | nil => rfl
  | cons c cs ih =>
      by_cases h : t ∈ c.times <;>
        simp [List.foldl_cons, List.filter_cons, h, ih]

/-- C3: the trigger-time sequence exposed by a step-condition composite
is the merge of all registered event-time lists into one ascending,
duplicate-free sequence, and applying the composite at a time applies
exactly the conditions registered for that time, in registration
order, to the solution vector. -/
theorem step_condition_composite_spec (c : FdmStepConditionComposite) :
    c.stoppingTimes.Pairwise (· < ·) ∧
    (∀ x, x ∈ c.stoppingTimes ↔ ∃ cond ∈ c.conditions, x ∈ cond.times) ∧
    (∀ a t, c.applyTo a t
      = (c.conditions.filter (fun cond => decide (t ∈ cond.times))).foldl
          (fun arr cond => cond.transform arr t) a) := by
  refine ⟨pairwise_mergeTimes _, ?_, ?_⟩
  · intro x
    rw [FdmStepConditionComposite.stoppingTimes, mem_mergeTimes, List.mem_flatten]
    constructor
    · rintro ⟨l, hl, hx⟩
      obtain ⟨cond, hc, rfl⟩ := List.mem_map.1 hl
      exact ⟨cond, hc, hx⟩
    · rintro ⟨cond, hc, hx⟩
      exact ⟨cond.times, List.mem_map.2 ⟨cond, hc, rfl⟩, hx⟩
  · intro a t
    exact foldl_if_mem_eq_foldl_filter c.conditions t a

/-- The time-stepping scheme family of section 4.4 of the
specification, as selected by `FdmSchemeDesc`. -/
inductive FdmSchemeType where
  | expEulerType
  | impEulerType
  | douglasType
  | craigSneydType
  | modCraigSneydType
  | hundsdorferType
deriving DecidableEq

/-- The uniform sampling of the interval from 0 to the maturity at the
requested step count. -/
def uniformTimeSteps (maturity : ℚ) (steps : ℕ) : List ℚ :=
  (List.range (steps + 1)).map (fun (i : ℕ) => maturity * (i : ℚ) / (steps : ℚ))

/-- Modelled from the spec: the full time grid of the Solver
(implementation not under src/): the union of the uniform sampling of
the interval from 0 to the maturity at the requested step count and of
every trigger time of the step-condition composite, as one ascending
duplicate-free list. -/
def solverTimeGrid (maturity : ℚ) (steps : ℕ) (c : FdmStepConditionComposite) : List ℚ :=
  mergeTimes (uniformTimeSteps maturity steps ++ c.stoppingTimes)

/-- Modelled from the spec: the scheme used at a given backward step
index (implementation not under src/): Implicit Euler during the
initial damping steps, the requested scheme afterwards. -/
def schemeForStep (requested : FdmSchemeType) (dampingSteps stepIndex : ℕ) :
    FdmSchemeType :=
  if stepIndex < dampingSteps then .impEulerType else requested

/-- C6: the Solver builds its time grid as the ascending duplicate-free
union of the uniform sampling of the interval from 0 to the maturity at
the requested step count with every trigger time of the step-condition
composite, and the configured number of initial damping steps run under
Implicit Euler in place of the requested scheme, which is used from the
first post-damping step on. -/
theorem solver_time_grid_and_damping (maturity : ℚ) (steps : ℕ)
    (c : FdmStepConditionComposite) (requested : FdmSchemeType)
    (dampingSteps stepIndex : ℕ) :
    (solverTimeGrid maturity steps c).Pairwise (· < ·) ∧
    (∀ t, t ∈ solverTimeGrid maturity steps c ↔
      t ∈ uniformTimeSteps maturity steps ∨ t ∈ c.stoppingTimes) ∧
    (stepIndex < dampingSteps →
      schemeForStep requested dampingSteps stepIndex = .impEulerType) ∧
    (dampingSteps ≤ stepIndex →
      schemeForStep requested dampingSteps stepIndex = requested) := by
  refine ⟨pairwise_mergeTimes _, ?_, ?_, ?_⟩
  · intro t
    rw [solverTimeGrid, mem_mergeTimes, List.mem_append]
  · intro h
    rw [schemeForStep, if_pos h]
  · intro h
    rw [schemeForStep, if_neg (by omega)]

/-- C6 witness: with maturity 1, two requested steps, a single
condition triggering at three quarters, two damping steps and the
Douglas scheme requested: the grid contains the trigger time, the
first step runs Implicit Euler and the third runs Douglas. -/
theorem solver_time_grid_and_damping_witness :
    ((3 : ℚ) / 4 ∈ solverTimeGrid 1 2 ⟨[⟨[3 / 4], fun a _ => a⟩]⟩) ∧
    schemeForStep .douglasType 2 1 = .impEulerType ∧
    schemeForStep .douglasType 2 2 = .douglasType :=
  ⟨((solver_time_grid_and_damping 1 2 ⟨[⟨[3 / 4], fun a _ => a⟩]⟩ .douglasType 2 1).2.1
      (3 / 4)).2
    (Or.inr (by simp [FdmStepConditionComposite.stoppingTimes, mem_mergeTimes])),
   (solver_time_grid_and_damping 1 2 ⟨[⟨[3 / 4], fun a _ => a⟩]⟩ .douglasType 2 1).2.2.1
      (by omega),
   (solver_time_grid_and_damping 1 2 ⟨[⟨[3 / 4], fun a _ => a⟩]⟩ .douglasType 2 2).2.2.2
      (by omega)⟩

/-- Modelled from the spec: the user-visible state of a Solver
(implementation not under src/): before a solve, after a successful
solve, or after a failed solve. -/
inductive SolverState where
  | ready
  | solved
  | failed
deriving DecidableEq

/-- Modelled from the spec: the Solver as seen through its queries:
its state and the solution array it owns after a successful solve. -/
structure FdmSolverModel where
  state : SolverState
  solution : Option (List ℚ)

/-- Modelled from the spec: the kinds of post-evolution queries the
Solver exposes. -/
inductive SolverQueryKind where
  | valueQuery
  | deltaQuery
  | gammaQuery
  | thetaQuery

/-- Modelled from the spec: running a solve whose single evolution
attempt either produces a solution array or fails.  A success stores
the array and marks the solver solved; a failure discards any partial
array, marks the solver failed, and hands the error of the attempt to
the caller unchanged (the engine performs no retries: the one attempt
decides the outcome). -/
def runSolve (attempt : Except FdmError (List ℚ)) :
    FdmSolverModel × Except FdmError (List ℚ) :=
  match attempt with
  | .ok arr => ({ state := .solved, solution := some arr }, .ok arr)
  | .error e => ({ state := .failed, solution := none }, .error e)

/-- Modelled from the spec: a post-evolution query (valueAt, deltaAt,
gammaAt, thetaAt); it reads the stored solution through the given
interpolation and fails with StaleQuery unless a successful solve has
run. -/
def queryAt (s : FdmSolverModel) (k : SolverQueryKind)
    (interpolate : SolverQueryKind → List ℚ → ℚ) : Except FdmError ℚ :=
  match s.state, s.solution with
  | .solved, some arr => .ok (interpolate k arr)
  | _, _ => .error .staleQuery

/-- C7: a failed solve leaves the Solver in the failed state with no
solution array, reports the error of the single evolution attempt to
the caller unchanged, and every subsequent query of any kind fails with
StaleQuery instead of returning a stale or partially-computed array. -/
theorem failed_solve_stale_queries (e : FdmError) :
    (runSolve (.error e)).1.state = .failed ∧
    (runSolve (.error e)).1.solution = none ∧
    (runSolve (.error e)).2 = .error e ∧
    (∀ (k : SolverQueryKind) (interpolate : SolverQueryKind → List ℚ → ℚ),
      queryAt (runSolve (.error e)).1 k interpolate = .error .staleQuery) := by
  refine ⟨rfl, rfl, rfl, ?_⟩
  intro k interpolate
  rfl

/-- The barrier types of `Barrier::Type`. -/
inductive BarrierType where
  | downIn
  | upIn
  | downOut
  | upOut
deriving DecidableEq

/-- The two sides of `FdmDirichletBoundary::Side`. -/
inductive BoundarySide where
  | lowerSide
  | upperSide
deriving DecidableEq

/-- A Dirichlet boundary condition as constructed by
`FdHestonRebateEngine::calculate`: the pinned value, the axis it is
attached to, and the edge of that axis. -/
structure FdmDirichletBoundary where
  valueOnBoundary : ℚ
  direction : ℕ
  side : BoundarySide
deriving DecidableEq

/-- The boundary-condition set built in step 4 of
`FdHestonRebateEngine::calculate`: a Dirichlet condition pinning the
rebate on the lower edge of axis 0 for DownIn and DownOut barriers, and
one on the upper edge of axis 0 for UpIn and UpOut barriers. -/
def rebateEngineBoundaries (barrierType : BarrierType) (rebate : ℚ) :
    List FdmDirichletBoundary :=
  (if barrierType = .downIn ∨ barrierType = .downOut then
    [{ valueOnBoundary := rebate, direction := 0, side := .lowerSide }]
  else []) ++
  (if barrierType = .upIn ∨ barrierType = .upOut then
    [{ valueOnBoundary := rebate, direction := 0, side := .upperSide }]
  else [])

/-- C8: for every solve of the rebate engine, a Down-type barrier
attaches exactly one Dirichlet condition pinning the rebate on the
lower edge of axis 0, an Up-type barrier attaches exactly one pinning
the rebate on the upper edge of axis 0, and no other boundary
conditions are attached. -/
theorem rebate_engine_boundaries_spec (rebate : ℚ) :
    rebateEngineBoundaries .downIn rebate
      = [{ valueOnBoundary := rebate, direction := 0, side := .lowerSide }] ∧
    rebateEngineBoundaries .downOut rebate
      = [{ valueOnBoundary := rebate, direction := 0, side := .lowerSide }] ∧
    rebateEngineBoundaries .upIn rebate
      = [{ valueOnBoundary := rebate, direction := 0, side := .upperSide }] ∧
    rebateEngineBoundaries .upOut rebate
      = [{ valueOnBoundary := rebate, direction := 0, side := .upperSide }] := by
  refine ⟨?_, ?_, ?_, ?_⟩ <;> rfl

/-- The `FdmMesher` interface as used by the inner-value calculators:
the per-dimension sizes of the layout and, for a grid point given by
its coordinate tuple, the location and the neighbour spacings along a
direction. -/
structure FdmMesher where
  dim : List ℕ
  location : List ℕ → ℕ → ℚ
  dplusAt : List ℕ → ℕ → ℚ
  dminusAt : List ℕ → ℕ → ℚ

/-- The coordinate tuple of a linear layout index, first dimension
fastest, as in `FdmLinearOpLayout`. -/
def coordsOfIndex : List ℕ → ℕ → List ℕ
  | [], _ => []
  | d :: rest, i => i % d :: coordsOfIndex rest (i / d)

/-- All coordinate tuples of a layout in iteration order, as produced
by iterating from `layout->begin()` to `layout->end()`. -/
def layoutCoords (dims : List ℕ) : List (List ℕ) :=
  (List.range (dims.foldl (· * ·) 1)).map (coordsOfIndex dims)

/-- `FdmLogBasketInnerValue`: basket payoff and mesher
(fdminnervaluecalculator.cpp, lines 103 to 107). -/
structure FdmLogBasketInnerValue where
  payoff : List ℚ → ℚ
  mesher : FdmMesher

/-- `FdmLogBasketInnerValue::innerValue`: the basket payoff applied to
the componentwise exponential of the locations of the point
(fdminnervaluecalculator.cpp, lines 109 to 117); `expf` stands for
std::exp. -/
def FdmLogBasketInnerValue.innerValue (c : FdmLogBasketInnerValue) (expf : ℚ → ℚ)
    (coords : List ℕ) (t : ℚ) : ℚ :=
  c.payoff ((List.range c.mesher.dim.length).map
    (fun i => expf (c.mesher.location coords i)))

/-- `FdmLogBasketInnerValue::avgInnerValue`: delegates to `innerValue`
(fdminnervaluecalculator.cpp, lines 119 to 123). -/
def FdmLogBasketInnerValue.avgInnerValue (c : FdmLogBasketInnerValue) (expf : ℚ → ℚ)
    (coords : List ℕ) (t : ℚ) : ℚ :=
  c.innerValue expf coords t

/-- C9: for every grid iterator and every time, the basket calculator
returns from avgInnerValue exactly the point inner value, the payoff of
the exponentials of the point locations: it performs no cell averaging
at all. -/
theorem basket_avg_inner_value_eq_inner_value (c : FdmLogBasketInnerValue)
    (expf : ℚ → ℚ) (coords : List ℕ) (t : ℚ) :
    c.avgInnerValue expf coords t = c.innerValue expf coords t ∧
    c.avgInnerValue expf coords t
      = c.payoff ((List.range c.mesher.dim.length).map
          (fun i => expf (c.mesher.location coords i))) :=
  ⟨rfl, rfl⟩

/-- `FdmLogInnerValue`: payoff, mesher, direction, and the mutable
cache `avgInnerValues_`, empty before the first call
(fdminnervaluecalculator.cpp, lines 38 to 45). -/
structure FdmLogInnerValue where
  payoff : ℚ → ℚ
  mesher : FdmMesher
  direction : ℕ
  avgInnerValues : List ℚ

/-- `FdmLogInnerValue::innerValue`: the payoff of the exponential of
the location along the direction (fdminnervaluecalculator.cpp, lines
47 to 50); `expf` stands for std::exp. -/
def FdmLogInnerValue.innerValue (c : FdmLogInnerValue) (expf : ℚ → ℚ)
    (coords : List ℕ) (t : ℚ) : ℚ :=
  c.payoff (expf (c.mesher.location coords c.direction))

/-- The lower end of the averaging cell of `avgInnerValueCalc`: half
the backward spacing below the location, except at the lower edge. -/
def FdmLogInnerValue.cellLower (c : FdmLogInnerValue) (coords : List ℕ) : ℚ :=
  if 0 < coords.getD c.direction 0 then
    c.mesher.location coords c.direction - c.mesher.dminusAt coords c.direction / 2
  else c.mesher.location coords c.direction

/-- The upper end of the averaging cell of `avgInnerValueCalc`: half
the forward spacing above the location, except at the upper edge. -/
def FdmLogInnerValue.cellUpper (c : FdmLogInnerValue) (coords : List ℕ) : ℚ :=
  if coords.getD c.direction 0 < c.mesher.dim.getD c.direction 0 - 1 then
    c.mesher.location coords c.direction + c.mesher.dplusAt coords c.direction / 2
  else c.mesher.location coords c.direction

/-- The integrand of `avgInnerValueCalc`: the payoff composed with the
exponential. -/
def FdmLogInnerValue.integrand (c : FdmLogInnerValue) (expf : ℚ → ℚ) : ℚ → ℚ :=
  fun x => c.payoff (expf x)

/-- The integration accuracy of `avgInnerValueCalc`. -/
def FdmLogInnerValue.accuracy (c : FdmLogInnerValue) (expf : ℚ → ℚ)
    (coords : List ℕ) : ℚ :=
  if c.integrand expf (c.cellLower coords) ≠ 0 ∨ c.integrand expf (c.cellUpper coords) ≠ 0
  then (c.integrand expf (c.cellLower coords) + c.integrand expf (c.cellUpper coords))
        * (5 / 100000)
  else 1 / 10000

/-- `FdmLogInnerValue::avgInnerValueCalc` (fdminnervaluecalculator.cpp,
lines 74 to 101): the Simpson integral of the payoff over the averaging
cell divided by the cell width; if the integration throws (`none`), the
point inner value is used instead.  `simpson` stands for
SimpsonIntegral(acc, 8) applied to the integrand and the two bounds. -/
def FdmLogInnerValue.avgInnerValueCalc (c : FdmLogInnerValue) (expf : ℚ → ℚ)
    (simpson : ℚ → (ℚ → ℚ) → ℚ → ℚ → Option ℚ) (coords : List ℕ) (t : ℚ) : ℚ :=
  match simpson (c.accuracy expf coords) (c.integrand expf)
      (c.cellLower coords) (c.cellUpper coords) with
  | some v => v / (c.cellUpper coords - c.cellLower coords)
  | none => c.innerValue expf coords t

/-- One step of the caching loop of `avgInnerValue`: the entry of the
coordinate along the direction is set at its first visit. -/
def cacheStep (c : FdmLogInnerValue) (expf : ℚ → ℚ)
    (simpson : ℚ → (ℚ → ℚ) → ℚ → ℚ → Option ℚ) (t : ℚ)
    (st : List (Option ℚ)) (coords : List ℕ) : List (Option ℚ) :=
  let xn := coords.getD c.direction 0
  match st.getD xn none with
  | some _ => st
  | none => st.set xn (some (c.avgInnerValueCalc expf simpson coords t))

/-- The cache built by the first call of `avgInnerValue`
(fdminnervaluecalculator.cpp, lines 54 to 68): one entry per coordinate
along the direction, filled in layout order at the first iterator
showing each coordinate, never-visited entries keeping the
default 0. -/
def buildAvgInnerValues (c : FdmLogInnerValue) (expf : ℚ → ℚ)
    (simpson : ℚ → (ℚ → ℚ) → ℚ → ℚ → Option ℚ) (t : ℚ) : List ℚ :=
  ((layoutCoords c.mesher.dim).foldl (cacheStep c expf simpson t)
      (List.replicate (c.mesher.dim.getD c.direction 0) none)).map
    (fun o => o.getD 0)

/-- `FdmLogInnerValue::avgInnerValue` (fdminnervaluecalculator.cpp,
lines 52 to 72): fills the cache on the first call and returns the
cached entry of the coordinate of the iterator along the direction,
together with the updated object. -/
def FdmLogInnerValue.avgInnerValue (c : FdmLogInnerValue) (expf : ℚ → ℚ)
    (simpson : ℚ → (ℚ → ℚ) → ℚ → ℚ → Option ℚ) (coords : List ℕ) (t : ℚ) :
    ℚ × FdmLogInnerValue :=
  let c2 := if c.avgInnerValues.isEmpty then
    { c with avgInnerValues := buildAvgInnerValues c expf simpson t } else c
  (c2.avgInnerValues.getD (coords.getD c2.direction 0) 0, c2)

lemma length_foldl_cacheStep (c : FdmLogInnerValue) (expf : ℚ → ℚ)
    (simpson : ℚ → (ℚ → ℚ) → ℚ → ℚ → Option ℚ) (t : ℚ)
    (l : List (List ℕ)) (st : List (Option ℚ)) :
    (l.foldl (cacheStep c expf simpson t) st).length = st.length := by
  induction l generalizing st with
  | nil => rfl
  | cons x xs ih =>
      rw [List.foldl_cons, ih]
      rw [cacheStep]
      cases st.getD (x.getD c.direction 0) none with
      | none => simp
      | some v => rfl

lemma length_buildAvgInnerValues (c : FdmLogInnerValue) (expf : ℚ → ℚ)
    (simpson : ℚ → (ℚ → ℚ) → ℚ → ℚ → Option ℚ) (t : ℚ) :
    (buildAvgInnerValues c expf simpson t).length
      = c.mesher.dim.getD c.direction 0 := by
  rw [buildAvgInnerValues, List.length_map, length_foldl_cacheStep,
      List.length_replicate]

/-- C10: on an instance with an empty cache, the first avgInnerValue
call computes and caches one average per coordinate along the direction
using the time of that call; every later call returns the cached entry
of the coordinate of its iterator, for any time argument, leaving the
object unchanged; and inside the cached computation a failing
integration is replaced by the point value, the payoff of the
exponential of the location. -/
theorem log_inner_value_caching (c : FdmLogInnerValue) (expf : ℚ → ℚ)
    (simpson : ℚ → (ℚ → ℚ) → ℚ → ℚ → Option ℚ)
    (hempty : c.avgInnerValues = [])
    (hdim : 0 < c.mesher.dim.getD c.direction 0)
    (coords1 : List ℕ) (t1 : ℚ) :
    (c.avgInnerValue expf simpson coords1 t1).2.avgInnerValues
      = buildAvgInnerValues c expf simpson t1 ∧
    (c.avgInnerValue expf simpson coords1 t1).1
      = (buildAvgInnerValues c expf simpson t1).getD (coords1.getD c.direction 0) 0 ∧
    (∀ (coords2 : List ℕ) (t2 : ℚ),
      ((c.avgInnerValue expf simpson coords1 t1).2.avgInnerValue
          expf simpson coords2 t2).1
        = (buildAvgInnerValues c expf simpson t1).getD (coords2.getD c.direction 0) 0 ∧
      ((c.avgInnerValue expf simpson coords1 t1).2.avgInnerValue
          expf simpson coords2 t2).2
        = (c.avgInnerValue expf simpson coords1 t1).2) ∧
    (∀ (coords : List ℕ) (t : ℚ),
      simpson (c.accuracy expf coords) (c.integrand expf)
          (c.cellLower coords) (c.cellUpper coords) = none →
      c.avgInnerValueCalc expf simpson coords t
        = c.payoff (expf (c.mesher.location coords c.direction))) := by
  have hfirst : c.avgInnerValue expf simpson coords1 t1
      = ((buildAvgInnerValues c expf simpson t1).getD (coords1.getD c.direction 0) 0,
         { c with avgInnerValues := buildAvgInnerValues c expf simpson t1 }) := by
    rw [FdmLogInnerValue.avgInnerValue]
    simp [hempty]
  have hne : buildAvgInnerValues c expf simpson t1 ≠ [] := by
    intro h0
    have hl := length_buildAvgInnerValues c expf simpson t1
    rw [h0, List.length_nil] at hl
    omega
  refine ⟨by rw [hfirst], by rw [hfirst], ?_, ?_⟩
  · intro coords2 t2
    rw [hfirst]
    constructor
    · rw [FdmLogInnerValue.avgInnerValue]
      simp [List.isEmpty_iff, hne]
    · rw [FdmLogInnerValue.avgInnerValue]
      simp [List.isEmpty_iff, hne]
  · intro coords t hnone
    rw [FdmLogInnerValue.avgInnerValueCalc, hnone]
    rfl

/-- A concrete inner-value calculator on a single axis with two points,
used to instantiate the caching theorem. -/
def sampleLogInnerValue : FdmLogInnerValue :=
  { payoff := fun x => x
    mesher :=
      { dim := [2]
        location := fun coords _ => (coords.getD 0 0 : ℚ)
        dplusAt := fun _ _ => 1
        dminusAt := fun _ _ => 1 }
    direction := 0
    avgInnerValues := [] }

/-- An integrator that always fails, standing for a SimpsonIntegral
that throws. -/
def noSimpson : ℚ → (ℚ → ℚ) → ℚ → ℚ → Option ℚ := fun _ _ _ _ => none

/-- C10 witness: the caching theorem applied to the concrete
calculator, an identity payoff and an always-failing integrator. -/
theorem log_inner_value_caching_witness :
    (sampleLogInnerValue.avgInnerValue (fun x => x) noSimpson [0] 0).2.avgInnerValues
      = buildAvgInnerValues sampleLogInnerValue (fun x => x) noSimpson 0 ∧
    sampleLogInnerValue.avgInnerValueCalc (fun x => x) noSimpson [1] 0
      = sampleLogInnerValue.payoff ((fun (x : ℚ) => x)
          (sampleLogInnerValue.mesher.location [1] sampleLogInnerValue.direction)) :=
  ⟨(log_inner_value_caching sampleLogInnerValue (fun x => x) noSimpson rfl
      (by decide) [0] 0).1,
   (log_inner_value_caching sampleLogInnerValue (fun x => x) noSimpson rfl
      (by decide) [0] 0).2.2.2 [1] 0 rfl⟩

/-- The quantile truncation of the stationary-density test
(src/test-suite/hestonslvmodel.cpp, `const Real eps = 1e-2`). -/
def squareRootStationaryEps : ℚ := 1 / 100

/-- The mass the test expects after evolving the stationary density on
the truncated grid (hestonslvmodel.cpp, `const Real expected =
1-2*eps`). -/
def squareRootStationaryExpected : ℚ := 1 - 2 * squareRootStationaryEps

/-- The acceptance tolerance of the test (hestonslvmodel.cpp,
`const Real tol = 0.005`). -/
def squareRootStationaryTol : ℚ := 5 / 1000

/-- The acceptance predicate of the test: it fails iff the integrated
density deviates from the expected mass by more than the tolerance
(hestonslvmodel.cpp, `if (std::fabs(calculated-expected) > tol)`). -/
def squareRootStationaryAccepts (calculated : ℚ) : Prop :=
  |calculated - squareRootStationaryExpected| ≤ squareRootStationaryTol

/-- C4 counterexample: the integrated-density value 98/100, exactly the
mass the code itself aims at, is accepted by the test of the repository
yet is not within 0.5% of 1.0, so the claim as stated contradicts the
code. -/
theorem square_root_mass_within_half_percent_of_one_false :
    squareRootStationaryAccepts (98 / 100) ∧
    ¬ |(98 : ℚ) / 100 - 1| ≤ squareRootStationaryTol := by
  constructor
  · rw [squareRootStationaryAccepts, squareRootStationaryExpected, squareRootStationaryEps,
        squareRootStationaryTol]
    norm_num
  · rw [squareRootStationaryTol]
    intro h
    rw [abs_le] at h
    linarith [h.1]

/-- C4 (amended): the mass-conservation criterion the code enforces
accepts the integrated density iff it is within 0.005 of the truncated
stationary mass 1 minus 2 eps (0.98 at the tested eps of 1/100), and
every accepted value lies outside 0.5% of 1.0. -/
theorem square_root_density_mass_target (x : ℚ) :
    (squareRootStationaryAccepts x ↔
      |x - (1 - 2 * squareRootStationaryEps)| ≤ squareRootStationaryTol) ∧
    (squareRootStationaryAccepts x → ¬ |x - 1| ≤ squareRootStationaryTol) ∧
    squareRootStationaryExpected = 98 / 100 := by
  refine ⟨Iff.rfl, ?_, by rw [squareRootStationaryExpected, squareRootStationaryEps]; norm_num⟩
  intro hacc habs
  rw [squareRootStationaryAccepts, squareRootStationaryExpected, squareRootStationaryEps,
      squareRootStationaryTol, abs_le] at hacc
  rw [squareRootStationaryTol, abs_le] at habs
  linarith [hacc.1, hacc.2, habs.1, habs.2]

/-- C4 witness: the amended theorem applied at the on-target mass
98/100. -/
theorem square_root_density_mass_target_witness :
    ¬ |(98 : ℚ) / 100 - 1| ≤ squareRootStationaryTol :=
  (square_root_density_mass_target (98 / 100)).2.1
    (by rw [squareRootStationaryAccepts, squareRootStationaryExpected, squareRootStationaryEps,
            squareRootStationaryTol]
        norm_num)
